import Mathlib

/-!
Shallow embedding of `benchexec/tablegenerator/statisticstex.py`.

The module turns benchmark statistics into a list of LaTeX
`\StoreBenchExecResult` command definitions.  Python strings are modelled as
Lean `String`s, `None` as `Option.none`, Python `zip` as `List.zip`
(both truncate), `collections.Counter` lookups as `countKey`, and
`defaultdict(int)` updates as `bump`.  Statistic values are modelled as `Int`
(only `None`-ness and the value `0` matter to the code under study).  The
utilities `util.number_to_roman_string` and `util.cap_first_letter` and the
data classes `Column`, `ColumnStatistics`, `StatValue` are imported by the
source file but are not part of it; they are modelled from the spec where
noted.  Object identity (`id(run_set)`) is modelled by treating the run-set
list entries as distinct objects.
-/

namespace StatisticsTex

/-- ASCII letter test, mirroring the regex character class `[a-zA-Z]` used by
`LatexCommand.format_command_part`. -/
def isAsciiLetter (c : Char) : Bool :=
  (('a' ≤ c) && (c ≤ 'z')) || (('A' ≤ c) && (c ≤ 'Z'))

/-- Modelled from the spec: the external capability `capitalizeFirstLetter`
(`util.cap_first_letter`, imported but not in src/): capitalize the first
letter of a word, leaving the rest unchanged. -/
def cap_first_letter (w : String) : String :=
  match w.toList with
  | [] => ""
  | c :: cs => String.mk (Char.toUpper c :: cs)

/-- Numeric value of an ASCII decimal digit character. -/
def digitVal (c : Char) : Nat := c.toNat - 48

/-- Numeric value of a decimal digit string (accumulator form). -/
def decValAux : List Char → Nat → Nat
  | [], acc => acc
  | c :: cs, acc => decValAux cs (acc * 10 + digitVal c)

/-- Numeric value of a decimal digit string. -/
def decVal (s : String) : Nat := decValAux s.toList 0

/-- One positional digit of a Roman numeral (`one`/`five` of this position,
`ten` of the next). -/
def romanDigit (one five ten : String) : Nat → String
  | 1 => one
  | 2 => one ++ one
  | 3 => one ++ one ++ one
  | 4 => one ++ five
  | 5 => five
  | 6 => five ++ one
  | 7 => five ++ one ++ one
  | 8 => five ++ one ++ one ++ one
  | 9 => one ++ ten
  | _ => ""

/-- Modelled from the spec: the external capability `toRomanNumeral`
(`util.number_to_roman_string`, imported but not in src/): the capitalized
Roman-numeral spelling of a positive integer. -/
def number_to_roman_string (n : Nat) : String :=
  String.join (List.replicate (n / 1000) "M")
    ++ romanDigit "C" "D" "M" (n / 100 % 10)
    ++ romanDigit "X" "L" "C" (n / 10 % 10)
    ++ romanDigit "I" "V" "X" (n % 10)

/-- `re.split("[^a-zA-Z]", name)`: split at every non-letter character;
adjacent delimiters and delimiters at either end produce empty tokens,
exactly as Python `re.split` does. -/
def splitNonLettersAux : List Char → List Char → List String
  | [], acc => [String.mk acc.reverse]
  | c :: cs, acc =>
    if isAsciiLetter c then splitNonLettersAux cs (c :: acc)
    else String.mk acc.reverse :: splitNonLettersAux cs []

/-- `re.split("[^a-zA-Z]", s)`. -/
def splitNonLetters (s : String) : List String := splitNonLettersAux s.toList []

/-- Python `s.split("_")` (splitting on a literal separator, keeping empty
parts; `"".split("_") == [""]`). -/
def pySplitUnderscoreAux : List Char → List Char → List String
  | [], acc => [String.mk acc.reverse]
  | c :: cs, acc =>
    if c = '_' then String.mk acc.reverse :: pySplitUnderscoreAux cs []
    else pySplitUnderscoreAux cs (c :: acc)

/-- Python `s.split("_")`. -/
def pySplitUnderscore (s : String) : List String := pySplitUnderscoreAux s.toList []

/-- Test for the anchored regex `^[1-9]+$` of `format_command_part`:
a non-empty string of digits 1–9 (note: `0` is excluded). -/
def isDigits19 (s : String) : Bool :=
  (!s.toList.isEmpty) && s.toList.all (fun c => ('1' ≤ c) && (c ≤ '9'))

/-- `LatexCommand.format_command_part`: replace a purely `[1-9]+` label by its
Roman-numeral spelling, split on non-letters, capitalize each token and
concatenate. -/
def format_command_part (name : String) : String :=
  let name1 := if isDigits19 name then number_to_roman_string (decVal name) else name
  String.join ((splitNonLetters name1).map cap_first_letter)

/-- Modelled from the spec: `Column` of `benchexec.tablegenerator.columns`
(imported, not in src/): a title, an optional display title and an optional
unit (the empty string models an absent/falsy value, matching the Python
truthiness tests in the source), plus the `format_value` rendering capability
with its target fixed to `"csv"`. -/
structure Column where
  title : String
  display_title : String
  unit : String
  format_value : Int → String

/-- Modelled from the spec: `StatValue` (imported, not in src/): an ordered
mapping from statistic kind to an optional value, as exposed by
`stat_value.__dict__.items()`. -/
structure StatValue where
  kinds : List (String × Option Int)
  deriving DecidableEq

/-- Modelled from the spec: `ColumnStatistics` (imported, not in src/): an
ordered mapping from statistic name to an optional `StatValue`, as exposed by
`column_statistic.__dict__.items()`. -/
structure ColumnStatistics where
  fields : List (String × Option StatValue)
  deriving DecidableEq

/-- Modelled from the spec: a run-set with its `benchmarkname` and `niceName`
attributes and its ordered column list. -/
structure RunSet where
  benchmarkname : String
  niceName : String
  columns : List Column

/-- The data holder for one LaTeX command (class `LatexCommand`): the six
identifier fragments plus the rendered value. -/
structure LatexCommand where
  benchmark_name : String
  runset_name : String
  column_title : String
  column_category : String
  column_subcategory : String
  stat_type : String
  value : String
  deriving DecidableEq

/-- `LatexCommand.__init__(benchmark_name, runset_name)`: both names are
passed through `format_command_part`; all other parts start empty. -/
def LatexCommand.init (benchmark_name runset_name : String) : LatexCommand :=
  { benchmark_name := format_command_part benchmark_name
    runset_name := format_command_part runset_name
    column_title := ""
    column_category := ""
    column_subcategory := ""
    stat_type := ""
    value := "" }

/-- One brace-wrapped LaTeX argument. -/
def braceArg (s : String) : String := "\x7b" ++ s ++ "\x7d"

/-- `LatexCommand.__repr__`: the command with its six fragment arguments. -/
def LatexCommand.commandStr (c : LatexCommand) : String :=
  "\\StoreBenchExecResult" ++ braceArg c.benchmark_name ++ braceArg c.runset_name
    ++ braceArg c.column_title ++ braceArg c.column_category
    ++ braceArg c.column_subcategory ++ braceArg c.stat_type

/-- `LatexCommand.to_latex_raw`: the command followed by its value argument. -/
def LatexCommand.to_latex_raw (c : LatexCommand) : String :=
  c.commandStr ++ braceArg c.value

/-- The six-fragment identifier tuple of a command. -/
def tuple6 (c : LatexCommand) : String × String × String × String × String × String :=
  (c.benchmark_name, c.runset_name, c.column_title, c.column_category,
    c.column_subcategory, c.stat_type)

/-- The (benchmark name, run-set name) fragments of a command. -/
def namePairOf (c : LatexCommand) : String × String := (c.benchmark_name, c.runset_name)

/-- The (category, subcategory, statistic kind) fragments of a command. -/
def tripleOf (c : LatexCommand) : String × String × String :=
  (c.column_category, c.column_subcategory, c.stat_type)

/-- Two commands are related when their six-fragment tuples differ. -/
def tupleNe (c1 c2 : LatexCommand) : Prop := tuple6 c1 ≠ tuple6 c2

/-- Occurrence count of a key in a list, modelling a `collections.Counter`
lookup. -/
def countKey {κ : Type} [DecidableEq κ] (k : κ) : List κ → Nat
  | [] => 0
  | x :: xs => (if x = k then 1 else 0) + countKey k xs

/-- A `defaultdict(int)` after `used[k] += 1`. -/
def bump {κ : Type} [DecidableEq κ] (used : κ → Nat) (k : κ) : κ → Nat :=
  fun t => if t = k then used t + 1 else used t

/-- The collision-resolution loop, projected to the keys it produces: the
per-key counter is incremented before the duplication check, and a key whose
total count exceeds 1 receives the Roman numeral of its running counter via
`suffix`. -/
def resolveAux {κ : Type} [DecidableEq κ] (total : κ → Nat) (suffix : κ → Nat → κ) :
    List κ → (κ → Nat) → List κ
  | [], _ => []
  | k :: rest, used =>
    (if total k > 1 then suffix k (used k + 1) else k)
      :: resolveAux total suffix rest (bump used k)

/-- The spec's standalone Collision Resolver: the totals are the occurrence
counts of the input sequence itself and the running counters start at 0. -/
def resolveKeys {κ : Type} [DecidableEq κ] (suffix : κ → Nat → κ) (keys : List κ) : List κ :=
  resolveAux (fun k => countKey k keys) suffix keys (fun _ => 0)

/-- The fused loop shape shared by `write_tex_command_table` and
`_provide_latex_commands`: walk the items, resolve each item's candidate key
with the before-check counter increment, and emit that item's block of
output. -/
def emitAux {κ ι α : Type} [DecidableEq κ] (total : κ → Nat) (key : ι → κ)
    (suffix : κ → Nat → κ) (blk : κ → ι → List α) : List ι → (κ → Nat) → List α
  | [], _ => []
  | it :: rest, used =>
    blk (if total (key it) > 1 then suffix (key it) (used (key it) + 1) else key it) it
      ++ emitAux total key suffix blk rest (bump used (key it))

/-- Column-level suffixing: the Roman numeral is appended to the raw selected
title (`column_title += suffix`). -/
def strSuffix (k : String) (n : Nat) : String := k ++ number_to_roman_string n

/-- Run-set-level suffixing: `benchmark_name_formatted += suffix` — the Roman
numeral is appended to the benchmark-name fragment, the first component of
the pair. -/
def pairSuffix (k : String × String) (n : Nat) : String × String :=
  (k.1 ++ number_to_roman_string n, k.2)

/-- `stat_name.split("_")`, padded with a trailing empty part when the split
yields fewer than two parts. -/
def statParts (stat_name : String) : List String :=
  let parts := pySplitUnderscore stat_name
  if parts.length < 2 then parts ++ [""] else parts

/-- The `column_category` fragment derived from a statistic name: all parts
except the last, each capitalized, joined, then formatted by
`set_command_part`. -/
def catOf (stat_name : String) : String :=
  format_command_part (String.join ((statParts stat_name).dropLast.map cap_first_letter))

/-- The `column_subcategory` fragment: the last part, formatted by
`set_command_part`. -/
def subOf (stat_name : String) : String :=
  format_command_part ((statParts stat_name).getLastD "")

/-- The per-statistic command after the two `set_command_part` calls for
category and subcategory (the `copy.deepcopy` of the loop). -/
def statBase (init : LatexCommand) (stat_name : String) : LatexCommand :=
  { init with column_category := catOf stat_name, column_subcategory := subOf stat_name }

/-- The inner `for k, v in stat_value.__dict__.items()` loop: a `None` value
is skipped (`continue`); any present value — including 0 — yields a command
with the formatted kind and the `format_value(v, "csv")` rendering. -/
def kindLeaves (cmd1 : LatexCommand) (col : Column) : List (String × Option Int) → List LatexCommand
  | [] => []
  | kv :: rest =>
    match kv.2 with
    | none => kindLeaves cmd1 col rest
    | some v =>
      { cmd1 with stat_type := format_command_part kv.1, value := col.format_value v }
        :: kindLeaves cmd1 col rest

/-- One iteration of the outer statistic loop of
`_column_statistic_to_latex_command`: skip a `None` stat value, else emit the
kind leaves followed by the unit leaf when the column declares a (truthy)
unit. -/
def statLeaves (init : LatexCommand) (col : Column) (f : String × Option StatValue) :
    List LatexCommand :=
  match f.2 with
  | none => []
  | some sv =>
    kindLeaves (statBase init f.1) col sv.kinds
      ++ (if col.unit ≠ "" then
            [{ statBase init f.1 with
                stat_type := format_command_part "unit", value := col.unit }]
          else [])

/-- The outer statistic loop over the record's ordered fields. -/
def statLeavesList (init : LatexCommand) (col : Column) :
    List (String × Option StatValue) → List LatexCommand
  | [] => []
  | f :: rest => statLeaves init col f ++ statLeavesList init col rest

/-- `_column_statistic_to_latex_command`: nothing for a missing record, else
the leaves of all its fields in order. -/
def column_statistic_to_latex_command (init : LatexCommand) (cs : Option ColumnStatistics)
    (col : Column) : List LatexCommand :=
  match cs with
  | none => []
  | some c => statLeavesList init col c.fields

/-- `col.display_title if col.display_title else col.title` (Python
truthiness: the empty string is falsy). -/
def select_column_name (col : Column) : String :=
  if col.display_title ≠ "" then col.display_title else col.title

/-- `column_titles_total_count`: the Counter over the selected (raw) titles of
all columns of the run-set. -/
def columnTotals (run_set : RunSet) : String → Nat :=
  fun k => countKey k (run_set.columns.map select_column_name)

/-- The body of one column iteration of `_provide_latex_commands`: set the
(formatted) resolved title on the shared command and walk the column's
statistics. -/
def columnBlock (cur : LatexCommand) (k2 : String) (it : Column × Option ColumnStatistics) :
    List LatexCommand :=
  column_statistic_to_latex_command { cur with column_title := format_command_part k2 } it.2 it.1

/-- `_provide_latex_commands`: resolve column-title collisions over the raw
selected titles while zipping columns with their statistics. -/
def provide_latex_commands (run_set : RunSet) (stat_list : List (Option ColumnStatistics))
    (cur : LatexCommand) : List LatexCommand :=
  emitAux (columnTotals run_set) (fun it => select_column_name it.1) strSuffix (columnBlock cur)
    (run_set.columns.zip stat_list) (fun _ => 0)

/-- The formatted (benchmark name, nice name) pair of a run-set
(`formatted_names[id(run_set)]`). -/
def formattedName (rs : RunSet) : String × String :=
  (format_command_part rs.benchmarkname, format_command_part rs.niceName)

/-- `names_total_counts`: the Counter over the formatted name pairs of all
run-sets. -/
def nameTotals (run_sets : List RunSet) : (String × String) → Nat :=
  fun k => countKey k (run_sets.map formattedName)

/-- The body of one run-set iteration of `write_tex_command_table`: build the
`LatexCommand` from the resolved pair and delegate to
`_provide_latex_commands`. -/
def runsetBlock (k2 : String × String) (it : RunSet × List (Option ColumnStatistics)) :
    List LatexCommand :=
  provide_latex_commands it.1 it.2 (LatexCommand.init k2.1 k2.2)

/-- All commands emitted by `write_tex_command_table` in emission order. -/
def allCommands (run_sets : List RunSet) (stats : List (List (Option ColumnStatistics))) :
    List LatexCommand :=
  emitAux (nameTotals run_sets) (fun it => formattedName it.1) pairSuffix runsetBlock
    (run_sets.zip stats) (fun _ => 0)

/-- The fixed header block `TEX_HEADER`. -/
def TEX_HEADER : String :=
  "% The following definition defines a command for each value.\n% The command name is the concatenation of the first six arguments.\n% To override this definition, define \\StoreBenchExecResult with \\newcommand before including this file.\n% Arguments: benchmark name, runset name, column title, column category, column subcategory, statistic, value\n\\providecommand\\StoreBenchExecResult[7]\x7b\\expandafter\\newcommand\\csname#1#2#3#4#5#6\\endcsname\x7b#7\x7d\x7d%\n"

/-- `write_tex_command_table`: the header followed by one `%`-terminated line
per emitted command. -/
def write_tex_command_table (run_sets : List RunSet)
    (stats : List (List (Option ColumnStatistics))) : String :=
  TEX_HEADER ++ String.join ((allCommands run_sets stats).map (fun c => c.to_latex_raw ++ "%\n"))

/-- The resolved column keys of a run-set (raw titles, possibly suffixed), in
column order over the zipped columns. -/
def resolvedColumnTitles (rs : RunSet) (sl : List (Option ColumnStatistics)) : List String :=
  resolveAux (columnTotals rs) strSuffix
    ((rs.columns.zip sl).map (fun it => select_column_name it.1)) (fun _ => 0)

/-- The resolved (benchmark, nice name) pairs, in run-set order over the
zipped run-sets. -/
def resolvedNamePairs (run_sets : List RunSet)
    (stats : List (List (Option ColumnStatistics))) : List (String × String) :=
  resolveAux (nameTotals run_sets) pairSuffix
    ((run_sets.zip stats).map (fun it => formattedName it.1)) (fun _ => 0)

/-- The name-pair fragments a resolved pair contributes to every command of
its run-set (the `LatexCommand` constructor formats both components again). -/
def finalPair (p : String × String) : String × String :=
  (format_command_part p.1, format_command_part p.2)

/-- The (category, subcategory, kind) fragments contributed by one kinds
list. -/
def kindTriples (cat sub : String) : List (String × Option Int) → List (String × String × String)
  | [] => []
  | kv :: rest =>
    match kv.2 with
    | none => kindTriples cat sub rest
    | some _ => (cat, sub, format_command_part kv.1) :: kindTriples cat sub rest

/-- The (category, subcategory, kind) fragments contributed by one statistic
field. -/
def statTriples (col : Column) (f : String × Option StatValue) : List (String × String × String) :=
  match f.2 with
  | none => []
  | some sv =>
    kindTriples (catOf f.1) (subOf f.1) sv.kinds
      ++ (if col.unit ≠ "" then [(catOf f.1, subOf f.1, format_command_part "unit")] else [])

/-- The (category, subcategory, kind) fragments of a field list. -/
def statTriplesList (col : Column) :
    List (String × Option StatValue) → List (String × String × String)
  | [] => []
  | f :: rest => statTriples col f ++ statTriplesList col rest

/-- The (category, subcategory, kind) fragments of all leaves of one
column/record pair, in emission order. -/
def leafTriples (col : Column) (cs : Option ColumnStatistics) : List (String × String × String) :=
  match cs with
  | none => []
  | some c => statTriplesList col c.fields

/-- The per-run-set blocks of emitted commands, one block per zipped
(run-set, record-list) pair. -/
def runsetBlocks (run_sets : List RunSet) (stats : List (List (Option ColumnStatistics))) :
    List (List LatexCommand) :=
  ((resolvedNamePairs run_sets stats).zip (run_sets.zip stats)).map (fun p => runsetBlock p.1 p.2)

/-- The per-column blocks of one run-set, one block per zipped
(column, record) pair. -/
def columnBlocks (rs : RunSet) (sl : List (Option ColumnStatistics)) (cur : LatexCommand) :
    List (List LatexCommand) :=
  ((resolvedColumnTitles rs sl).zip (rs.columns.zip sl)).map (fun p => columnBlock cur p.1 p.2)

/-- Source coordinates of a leaf: run-set index, column index, statistic-field
index, kind index (the unit leaf of a statistic uses the index one past its
last kind). -/
abbrev Coord := Nat × Nat × Nat × Nat

/-- Strict lexicographic order on (field, kind) coordinate pairs. -/
def pairLt (a b : Nat × Nat) : Prop := a.1 < b.1 ∨ (a.1 = b.1 ∧ a.2 < b.2)

/-- Strict lexicographic order on (column, field, kind) coordinate triples. -/
def tripLt (a b : Nat × Nat × Nat) : Prop := a.1 < b.1 ∨ (a.1 = b.1 ∧ pairLt a.2 b.2)

/-- Strict lexicographic order on source coordinates. -/
def coordLt (a b : Coord) : Prop := a.1 < b.1 ∨ (a.1 = b.1 ∧ tripLt a.2 b.2)

/-- The kinds loop instrumented with the input position of each emitted
kind. -/
def tagKindLeaves (cmd1 : LatexCommand) (col : Column) :
    Nat → List (String × Option Int) → List (Nat × LatexCommand)
  | _, [] => []
  | i, kv :: rest =>
    match kv.2 with
    | none => tagKindLeaves cmd1 col (i + 1) rest
    | some v =>
      (i, { cmd1 with stat_type := format_command_part kv.1, value := col.format_value v })
        :: tagKindLeaves cmd1 col (i + 1) rest

/-- One statistic field instrumented with kind positions; the unit leaf sits
after every kind position. -/
def tagStatLeaves (init : LatexCommand) (col : Column) (f : String × Option StatValue) :
    List (Nat × LatexCommand) :=
  match f.2 with
  | none => []
  | some sv =>
    tagKindLeaves (statBase init f.1) col 0 sv.kinds
      ++ (if col.unit ≠ "" then
            [(sv.kinds.length,
              { statBase init f.1 with
                  stat_type := format_command_part "unit", value := col.unit })]
          else [])

/-- The field loop instrumented with field positions. -/
def tagFields (init : LatexCommand) (col : Column) :
    Nat → List (String × Option StatValue) → List ((Nat × Nat) × LatexCommand)
  | _, [] => []
  | s, f :: rest =>
    (tagStatLeaves init col f).map (fun t => ((s, t.1), t.2))
      ++ tagFields init col (s + 1) rest

/-- The record walker instrumented with (field, kind) positions. -/
def tagWalker (init : LatexCommand) (cs : Option ColumnStatistics) (col : Column) :
    List ((Nat × Nat) × LatexCommand) :=
  match cs with
  | none => []
  | some c => tagFields init col 0 c.fields

/-- The column loop instrumented with column positions. -/
def tagColumns (cur : LatexCommand) :
    Nat → List (String × (Column × Option ColumnStatistics)) →
      List ((Nat × Nat × Nat) × LatexCommand)
  | _, [] => []
  | j, p :: rest =>
    (tagWalker { cur with column_title := format_command_part p.1 } p.2.2 p.2.1).map
        (fun t => ((j, t.1), t.2))
      ++ tagColumns cur (j + 1) rest

/-- `_provide_latex_commands` instrumented with (column, field, kind)
positions. -/
def tagProvide (rs : RunSet) (sl : List (Option ColumnStatistics)) (cur : LatexCommand) :
    List ((Nat × Nat × Nat) × LatexCommand) :=
  tagColumns cur 0 ((resolvedColumnTitles rs sl).zip (rs.columns.zip sl))

/-- The run-set loop instrumented with run-set positions. -/
def tagRunsets :
    Nat → List ((String × String) × (RunSet × List (Option ColumnStatistics))) →
      List (Coord × LatexCommand)
  | _, [] => []
  | i, p :: rest =>
    (tagProvide p.2.1 p.2.2 (LatexCommand.init p.1.1 p.1.2)).map (fun t => ((i, t.1), t.2))
      ++ tagRunsets (i + 1) rest

/-- The full generation pass instrumented with source coordinates. -/
def taggedCommands (run_sets : List RunSet) (stats : List (List (Option ColumnStatistics))) :
    List (Coord × LatexCommand) :=
  tagRunsets 0 ((resolvedNamePairs run_sets stats).zip (run_sets.zip stats))

/-- A column with the given title, no display title, no unit; values render as
the text "0" (a concrete `format_value` capability for examples). -/
def plainCol (t : String) : Column :=
  { title := t, display_title := "", unit := "", format_value := fun _ => "0" }

/-- A one-field record: statistic name "status" with a single "sum" kind whose
value is 0. -/
def sumRecord : Option ColumnStatistics :=
  some { fields := [("status", some { kinds := [("sum", some 0)] })] }

/-- Input for the C1 counterexample: one run-set whose columns are titled
"AI", "A", "A". -/
def c1runs : List RunSet :=
  [{ benchmarkname := "b", niceName := "r", columns := [plainCol "AI", plainCol "A", plainCol "A"] }]

/-- Statistics for the C1 counterexample. -/
def c1stats : List (List (Option ColumnStatistics)) := [[sumRecord, sumRecord, sumRecord]]

/-- Input for the C2 counterexample: two run-sets with identical benchmark
name "a" and nice name "b". -/
def c2runs : List RunSet :=
  [{ benchmarkname := "a", niceName := "b", columns := [plainCol "t"] },
   { benchmarkname := "a", niceName := "b", columns := [plainCol "t"] }]

/-- Statistics for the C2 counterexample. -/
def c2stats : List (List (Option ColumnStatistics)) := [[sumRecord], [sumRecord]]

/-- A column with title "t", unit "s" and no display title; values render as
the text "0". -/
def unitCol : Column :=
  { title := "t", display_title := "", unit := "s", format_value := fun _ => "0" }

/-- Run-set for the C3 counterexample: two columns whose raw titles "a b" and
"a-b" differ but sanitize to the same fragment "AB". -/
def c3rs : RunSet :=
  { benchmarkname := "b", niceName := "r", columns := [plainCol "a b", plainCol "a-b"] }

/-- Input list for the C3 counterexample. -/
def c3runs : List RunSet := [c3rs]

/-- Statistics for the C3 counterexample. -/
def c3stats : List (List (Option ColumnStatistics)) := [[sumRecord, sumRecord]]

/-- A record with one statistic carrying two present kinds. -/
def twoKindRecord : Option ColumnStatistics :=
  some { fields := [("status", some { kinds := [("sum", some 3), ("min", some 1)] })] }

/-- Witness input for the amended C1: one run-set, one column, one statistic
with two kinds. -/
def w1runs : List RunSet :=
  [{ benchmarkname := "b", niceName := "r", columns := [plainCol "t"] }]

/-- Witness statistics for the amended C1. -/
def w1stats : List (List (Option ColumnStatistics)) := [[twoKindRecord]]

/-!  Lemmas about the occurrence counter. -/

theorem countKey_append {κ : Type} [DecidableEq κ] (k : κ) :
    ∀ l1 l2 : List κ, countKey k (l1 ++ l2) = countKey k l1 + countKey k l2
  | [], l2 => by simp [countKey]
  | x :: xs, l2 => by simp [countKey, countKey_append k xs l2]; omega

theorem countKey_eq_zero {κ : Type} [DecidableEq κ] {k : κ} :
    ∀ {l : List κ}, k ∉ l → countKey k l = 0
  | [], _ => rfl
  | x :: xs, h => by
    have hx : ¬ x = k := fun e => h (e ▸ List.mem_cons_self x xs)
    have hxs : k ∉ xs := fun m => h (List.mem_cons_of_mem x m)
    simp [countKey, hx, countKey_eq_zero hxs]

theorem one_le_countKey_getD {κ : Type} [DecidableEq κ] (d : κ) :
    ∀ (l : List κ) (i : Nat), i < l.length → 1 ≤ countKey (l.getD i d) l
  | x :: xs, 0, _ => by simp [countKey]
  | x :: xs, i + 1, h => by
    have := one_le_countKey_getD d xs i (by simpa using h)
    simp only [List.getD_cons_succ, countKey]
    omega

theorem countKey_eq_one_of_nodup {κ : Type} [DecidableEq κ] {k : κ} :
    ∀ {l : List κ}, l.Nodup → k ∈ l → countKey k l = 1
  | x :: xs, hn, hm => by
    rcases List.mem_cons.mp hm with h1 | h2
    · subst h1
      have : k ∉ xs := (List.nodup_cons.mp hn).1
      simp [countKey, countKey_eq_zero this]
    · have hx : ¬ x = k := by
        intro e; exact (List.nodup_cons.mp hn).1 (e ▸ h2)
      simp [countKey, hx, countKey_eq_one_of_nodup (List.nodup_cons.mp hn).2 h2]

/-!  The collision resolver: length and positional characterization. -/

theorem resolveAux_length {κ : Type} [DecidableEq κ] (total : κ → Nat) (suffix : κ → Nat → κ) :
    ∀ (keys : List κ) (used : κ → Nat),
      (resolveAux total suffix keys used).length = keys.length
  | [], _ => rfl
  | k :: rest, used => by
    simp [resolveAux, resolveAux_length total suffix rest (bump used k)]

/-- Positional characterization of the resolver loop: the key at position `i`
is left alone when its total count is at most 1, and otherwise receives the
suffix for the running counter, which equals the entry counter plus the number
of occurrences of that key among the first `i + 1` keys. -/
theorem resolveAux_getD {κ : Type} [DecidableEq κ] (total : κ → Nat) (suffix : κ → Nat → κ)
    (d : κ) :
    ∀ (keys : List κ) (used : κ → Nat) (i : Nat), i < keys.length →
      (resolveAux total suffix keys used).getD i d =
        (if total (keys.getD i d) > 1 then
          suffix (keys.getD i d)
            (used (keys.getD i d) + countKey (keys.getD i d) (keys.take (i + 1)))
        else keys.getD i d)
  | [], _, i, h => absurd h (by simp)
  | k :: rest, used, 0, _ => by
    simp [resolveAux, countKey]
  | k :: rest, used, i + 1, h => by
    have h2 : i < rest.length := by simpa using h
    have ih := resolveAux_getD total suffix d rest (bump used k) i h2
    have hstep :
        (resolveAux total suffix (k :: rest) used).getD (i + 1) d =
          (resolveAux total suffix rest (bump used k)).getD i d := by
      simp [resolveAux]
    rw [hstep, ih]
    simp only [List.getD_cons_succ, List.take_succ_cons]
    have hc : bump used k (rest.getD i d) + countKey (rest.getD i d) (rest.take (i + 1)) =
        used (rest.getD i d) + countKey (rest.getD i d) (k :: rest.take (i + 1)) := by
      simp only [bump, countKey]
      by_cases hk : rest.getD i d = k
      · rw [if_pos hk, if_pos hk.symm]; omega
      · rw [if_neg hk, if_neg (fun e => hk e.symm)]; omega
    rw [hc]

/-- The fused emit loop equals resolving the keys first and then emitting each
item's block against its resolved key. -/
theorem emitAux_eq {κ ι α : Type} [DecidableEq κ] (total : κ → Nat) (key : ι → κ)
    (suffix : κ → Nat → κ) (blk : κ → ι → List α) :
    ∀ (items : List ι) (used : κ → Nat),
      emitAux total key suffix blk items used =
        ((resolveAux total suffix (items.map key) used).zip items).flatMap
          (fun p => blk p.1 p.2)
  | [], _ => rfl
  | it :: rest, used => by
    simp [emitAux, resolveAux, emitAux_eq total key suffix blk rest (bump used (key it))]

/-!  The kinds loop: appending, emptiness. -/

theorem kindLeaves_append (cmd1 : LatexCommand) (col : Column) :
    ∀ l1 l2 : List (String × Option Int),
      kindLeaves cmd1 col (l1 ++ l2) = kindLeaves cmd1 col l1 ++ kindLeaves cmd1 col l2
  | [], l2 => rfl
  | (k, v) :: rest, l2 => by
    cases v <;> simp [kindLeaves, kindLeaves_append cmd1 col rest l2]

theorem kindLeaves_eq_nil_of_absent (cmd1 : LatexCommand) (col : Column) :
    ∀ {l : List (String × Option Int)}, (∀ kv ∈ l, kv.2 = none) → kindLeaves cmd1 col l = []
  | [], _ => rfl
  | (k, v) :: rest, h => by
    have hv : v = none := h (k, v) (List.mem_cons_self _ _)
    subst hv
    show kindLeaves cmd1 col rest = []
    exact kindLeaves_eq_nil_of_absent cmd1 col fun kv m => h kv (List.mem_cons_of_mem _ m)

/-!  The walker never touches the benchmark, run-set and title fragments. -/

theorem kindLeaves_fixed (cmd1 : LatexCommand) (col : Column) :
    ∀ {l : List (String × Option Int)} {c : LatexCommand}, c ∈ kindLeaves cmd1 col l →
      c.benchmark_name = cmd1.benchmark_name ∧ c.runset_name = cmd1.runset_name ∧
        c.column_title = cmd1.column_title
  | (k, v) :: rest, c, h => by
    cases v with
    | none => exact kindLeaves_fixed cmd1 col (show c ∈ kindLeaves cmd1 col rest from h)
    | some v =>
      rcases List.mem_cons.mp h with h1 | h2
      · subst h1; exact ⟨rfl, rfl, rfl⟩
      · exact kindLeaves_fixed cmd1 col h2

theorem statLeaves_fixed (init : LatexCommand) (col : Column)
    {f : String × Option StatValue} {c : LatexCommand} (h : c ∈ statLeaves init col f) :
    c.benchmark_name = init.benchmark_name ∧ c.runset_name = init.runset_name ∧
      c.column_title = init.column_title := by
  obtain ⟨stat_name, sv⟩ := f
  cases sv with
  | none => cases h
  | some sv =>
    rcases List.mem_append.mp h with h1 | h2
    · exact kindLeaves_fixed (statBase init stat_name) col h1
    · by_cases hu : col.unit ≠ ""
      · rw [if_pos hu] at h2
        have h3 := List.mem_singleton.mp h2
        subst h3; exact ⟨rfl, rfl, rfl⟩
      · rw [if_neg hu] at h2; cases h2

theorem statLeavesList_fixed (init : LatexCommand) (col : Column) :
    ∀ {fs : List (String × Option StatValue)} {c : LatexCommand},
      c ∈ statLeavesList init col fs →
      c.benchmark_name = init.benchmark_name ∧ c.runset_name = init.runset_name ∧
        c.column_title = init.column_title
  | f :: rest, c, h => by
    rcases List.mem_append.mp h with h1 | h2
    · exact statLeaves_fixed init col h1
    · exact statLeavesList_fixed init col h2

theorem walker_fixed (init : LatexCommand) (cs : Option ColumnStatistics) (col : Column)
    {c : LatexCommand} (h : c ∈ column_statistic_to_latex_command init cs col) :
    c.benchmark_name = init.benchmark_name ∧ c.runset_name = init.runset_name ∧
      c.column_title = init.column_title := by
  cases cs with
  | none => cases h
  | some cs => exact statLeavesList_fixed init col h

/-- Membership in the fused emit loop comes from the block of one of the
items. -/
theorem mem_emitAux {κ ι α : Type} [DecidableEq κ] {total : κ → Nat} {key : ι → κ}
    {suffix : κ → Nat → κ} {blk : κ → ι → List α} :
    ∀ {items : List ι} {used : κ → Nat} {c : α},
      c ∈ emitAux total key suffix blk items used → ∃ k it, it ∈ items ∧ c ∈ blk k it
  | it :: rest, used, c, h => by
    rcases List.mem_append.mp h with h1 | h2
    · exact ⟨_, it, List.mem_cons_self _ _, h1⟩
    · obtain ⟨k, it2, hm, hc⟩ := mem_emitAux h2
      exact ⟨k, it2, List.mem_cons_of_mem _ hm, hc⟩

theorem provide_fixed (run_set : RunSet) (stat_list : List (Option ColumnStatistics))
    (cur : LatexCommand) {c : LatexCommand} (h : c ∈ provide_latex_commands run_set stat_list cur) :
    c.benchmark_name = cur.benchmark_name ∧ c.runset_name = cur.runset_name := by
  obtain ⟨k, it, -, hc⟩ := mem_emitAux h
  have := walker_fixed _ it.2 it.1 hc
  exact ⟨this.1, this.2.1⟩

/-!  The (category, subcategory, kind) projection of the walker. -/

theorem kindLeaves_map_tripleOf (cmd1 : LatexCommand) (col : Column) :
    ∀ l : List (String × Option Int),
      (kindLeaves cmd1 col l).map tripleOf =
        kindTriples cmd1.column_category cmd1.column_subcategory l
  | [] => rfl
  | (k, v) :: rest => by
    cases v <;>
      simp [kindLeaves, kindTriples, tripleOf, kindLeaves_map_tripleOf cmd1 col rest]

theorem statLeaves_map_tripleOf (init : LatexCommand) (col : Column)
    (f : String × Option StatValue) :
    (statLeaves init col f).map tripleOf = statTriples col f := by
  obtain ⟨stat_name, sv⟩ := f
  cases sv with
  | none => rfl
  | some sv =>
    by_cases hu : col.unit ≠ "" <;>
      simp [statLeaves, statTriples, hu, tripleOf, kindLeaves_map_tripleOf, statBase]

theorem statLeavesList_map_tripleOf (init : LatexCommand) (col : Column) :
    ∀ fs : List (String × Option StatValue),
      (statLeavesList init col fs).map tripleOf = statTriplesList col fs
  | [] => rfl
  | f :: rest => by
    simp [statLeavesList, statTriplesList, statLeaves_map_tripleOf init col f,
      statLeavesList_map_tripleOf init col rest]

theorem walker_map_tripleOf (init : LatexCommand) (cs : Option ColumnStatistics) (col : Column) :
    (column_statistic_to_latex_command init cs col).map tripleOf = leafTriples col cs := by
  cases cs with
  | none => rfl
  | some cs => exact statLeavesList_map_tripleOf init col cs.fields

/-!  A generic distinctness transfer for concatenations of tagged blocks. -/

/-- If each block's elements project (via `tag`) to that block's tag, the tags
are related pairwise by `S`, `S`-related tags force `R`, and each block is
internally `R`-pairwise, then the concatenation is `R`-pairwise. -/
theorem pairwise_flatten_tagged {γ δ : Type} (R : γ → γ → Prop) (S : δ → δ → Prop)
    (tag : γ → δ) (hRS : ∀ c1 c2, S (tag c1) (tag c2) → R c1 c2) :
    ∀ pairs : List (List γ × δ),
      (pairs.map Prod.snd).Pairwise S →
      (∀ p ∈ pairs, ∀ c ∈ p.1, tag c = p.2) →
      (∀ p ∈ pairs, p.1.Pairwise R) →
      ((pairs.map Prod.fst).flatten).Pairwise R
  | [], _, _, _ => List.Pairwise.nil
  | p :: ps, hS, htag, hR => by
    simp only [List.map_cons, List.flatten_cons]
    rw [List.pairwise_append]
    have hS2 := List.pairwise_cons.mp (show (p.2 :: ps.map Prod.snd).Pairwise S from hS)
    refine ⟨hR p (List.mem_cons_self _ _),
      pairwise_flatten_tagged R S tag hRS ps hS2.2
        (fun q hq c hc => htag q (List.mem_cons_of_mem _ hq) c hc)
        (fun q hq => hR q (List.mem_cons_of_mem _ hq)), ?_⟩
    intro c1 hc1 c2 hc2
    obtain ⟨bl, hbl, hcbl⟩ := List.mem_flatten.mp hc2
    obtain ⟨q, hq, rfl⟩ := List.mem_map.mp hbl
    have h1 : tag c1 = p.2 := htag p (List.mem_cons_self _ _) c1 hc1
    have h2 : tag c2 = q.2 := htag q (List.mem_cons_of_mem _ hq) c2 hcbl
    have hSpq : S p.2 q.2 := hS2.1 q.2 (List.mem_map_of_mem _ hq)
    exact hRS c1 c2 (by rw [h1, h2]; exact hSpq)

/-- `flatMap` version of the tagged distinctness transfer. -/
theorem pairwise_flatMap_tagged {β γ δ : Type} (R : γ → γ → Prop) (S : δ → δ → Prop)
    (tag : γ → δ) (hRS : ∀ c1 c2, S (tag c1) (tag c2) → R c1 c2) (F : β → List γ)
    (T : β → δ) :
    ∀ l : List β,
      (l.map T).Pairwise S →
      (∀ b ∈ l, ∀ c ∈ F b, tag c = T b) →
      (∀ b ∈ l, (F b).Pairwise R) →
      (l.flatMap F).Pairwise R
  | [], _, _, _ => List.Pairwise.nil
  | b :: rest, hS, htag, hin => by
    rw [List.flatMap_cons, List.pairwise_append]
    have hS2 := List.pairwise_cons.mp (show (T b :: rest.map T).Pairwise S from hS)
    refine ⟨hin b (List.mem_cons_self _ _),
      pairwise_flatMap_tagged R S tag hRS F T rest hS2.2
        (fun b2 hb2 c hc => htag b2 (List.mem_cons_of_mem _ hb2) c hc)
        (fun b2 hb2 => hin b2 (List.mem_cons_of_mem _ hb2)), ?_⟩
    intro c1 hc1 c2 hc2
    obtain ⟨b2, hb2, hcb2⟩ := List.mem_flatMap.mp hc2
    have h1 : tag c1 = T b := htag b (List.mem_cons_self _ _) c1 hc1
    have h2 : tag c2 = T b2 := htag b2 (List.mem_cons_of_mem _ hb2) c2 hcb2
    exact hRS c1 c2 (by rw [h1, h2]; exact hS2.1 (T b2) (List.mem_map_of_mem _ hb2))

theorem namePairOf_eq_of_tuple6_eq {c1 c2 : LatexCommand} (h : tuple6 c1 = tuple6 c2) :
    namePairOf c1 = namePairOf c2 := by
  simp only [tuple6, Prod.mk.injEq] at h
  simp [namePairOf, h.1, h.2.1]

theorem title_eq_of_tuple6_eq {c1 c2 : LatexCommand} (h : tuple6 c1 = tuple6 c2) :
    c1.column_title = c2.column_title := by
  simp only [tuple6, Prod.mk.injEq] at h
  exact h.2.2.1

theorem tripleOf_eq_of_tuple6_eq {c1 c2 : LatexCommand} (h : tuple6 c1 = tuple6 c2) :
    tripleOf c1 = tripleOf c2 := by
  simp only [tuple6, Prod.mk.injEq] at h
  simp [tripleOf, h.2.2.2.1, h.2.2.2.2.1, h.2.2.2.2.2]

/-- Distinct leaf triples make a column's walk pairwise distinct on full
tuples. -/
theorem walker_pairwise (init : LatexCommand) (cs : Option ColumnStatistics) (col : Column)
    (h : (leafTriples col cs).Pairwise (· ≠ ·)) :
    (column_statistic_to_latex_command init cs col).Pairwise tupleNe := by
  have hm : ((column_statistic_to_latex_command init cs col).map tripleOf).Pairwise (· ≠ ·) := by
    rw [walker_map_tripleOf]; exact h
  exact (List.pairwise_map.mp hm).imp fun hne heq => hne (tripleOf_eq_of_tuple6_eq heq)

/-- Distinct resolved title fragments and distinct leaf triples make one
run-set's commands pairwise distinct on full tuples. -/
theorem provide_pairwise (rs : RunSet) (sl : List (Option ColumnStatistics))
    (cur : LatexCommand)
    (h2 : ((resolvedColumnTitles rs sl).map format_command_part).Pairwise (· ≠ ·))
    (h3 : ∀ q ∈ rs.columns.zip sl, (leafTriples q.1 q.2).Pairwise (· ≠ ·)) :
    (provide_latex_commands rs sl cur).Pairwise tupleNe := by
  have hprov : provide_latex_commands rs sl cur =
      ((resolvedColumnTitles rs sl).zip (rs.columns.zip sl)).flatMap
        fun p => columnBlock cur p.1 p.2 := emitAux_eq _ _ _ _ _ _
  rw [hprov]
  have hlen : (resolvedColumnTitles rs sl).length ≤ (rs.columns.zip sl).length := by
    rw [resolvedColumnTitles, resolveAux_length, List.length_map]
  refine pairwise_flatMap_tagged tupleNe (· ≠ ·) (fun c => c.column_title)
    (fun c1 c2 hS heq => hS (title_eq_of_tuple6_eq heq)) _
    (fun p => format_command_part p.1) _ ?_ ?_ ?_
  · have hfst : (((resolvedColumnTitles rs sl).zip (rs.columns.zip sl)).map
        fun p => format_command_part p.1)
        = (resolvedColumnTitles rs sl).map format_command_part := by
      rw [show (fun p : String × (Column × Option ColumnStatistics) =>
            format_command_part p.1) = format_command_part ∘ Prod.fst from rfl]
      rw [← List.map_map, List.map_fst_zip _ _ hlen]
    rw [hfst]; exact h2
  · rintro ⟨k2, it⟩ - c hc
    exact (walker_fixed _ it.2 it.1 hc).2.2
  · rintro ⟨k2, it⟩ hp
    have hmem : it ∈ rs.columns.zip sl := (List.of_mem_zip hp).2
    exact walker_pairwise _ it.2 it.1 (h3 it hmem)

/-- The resolver leaves every key alone when no key is duplicated according to
the totals. -/
theorem resolveAux_id {κ : Type} [DecidableEq κ] (total : κ → Nat) (suffix : κ → Nat → κ) :
    ∀ (keys : List κ) (used : κ → Nat), (∀ k ∈ keys, ¬ total k > 1) →
      resolveAux total suffix keys used = keys
  | [], _, _ => rfl
  | k :: rest, used, h => by
    rw [resolveAux, if_neg (h k (List.mem_cons_self _ _)),
      resolveAux_id total suffix rest (bump used k) fun k2 m => h k2 (List.mem_cons_of_mem _ m)]

theorem map_key_zip_self {ι κ : Type} (key : ι → κ) :
    ∀ items : List ι, (items.map key).zip items = items.map fun it => (key it, it)
  | [] => rfl
  | it :: rest => by simp [map_key_zip_self key rest]

/-!  Claim theorems. -/

/-- C2, counterexample: with two run-sets that share benchmark name "a" and
nice name "b", the emitted (benchmark, run-set) fragment pairs are
("AI", "B") and ("AII", "B"): the Roman suffix lands on the benchmark-name
fragment (the first of the pair), not on the run-set-name fragment (the
last), which the claim predicts would give ("A", "BI") and ("A", "BII"). -/
theorem runset_suffix_counterexample :
    (allCommands c2runs c2stats).map namePairOf = [("AI", "B"), ("AII", "B")]
      ∧ ¬ (allCommands c2runs c2stats).map namePairOf = [("A", "BI"), ("A", "BII")] :=
  ⟨by decide, by decide⟩

/-- C2, amended: when the run-set-level resolver suffixes a duplicated
(benchmark-name, run-set-name) pair, the Roman numeral of the 1-based
occurrence index is appended to the benchmark-name fragment — the FIRST
fragment of the pair — and the run-set-name fragment is returned unchanged. -/
theorem resolver_pair_suffix_on_first (pairs : List (String × String)) (i : Nat)
    (h : i < pairs.length) :
    (resolveKeys pairSuffix pairs).getD i ("", "") =
      (if countKey (pairs.getD i ("", "")) pairs = 1 then pairs.getD i ("", "")
       else ((pairs.getD i ("", "")).1
               ++ number_to_roman_string (countKey (pairs.getD i ("", "")) (pairs.take (i + 1))),
             (pairs.getD i ("", "")).2)) := by
  have h1 := resolveAux_getD (fun k => countKey k pairs) pairSuffix ("", "") pairs
    (fun _ => 0) i h
  have h2 := one_le_countKey_getD ("", "") pairs i h
  rw [resolveKeys, h1]
  by_cases hc : countKey (pairs.getD i ("", "")) pairs = 1
  · rw [if_neg (show ¬ countKey (pairs.getD i ("", "")) pairs > 1 by omega), if_pos hc]
  · rw [if_pos (show countKey (pairs.getD i ("", "")) pairs > 1 by omega), if_neg hc]
    simp [pairSuffix]

/-- Witness for the amended C2 at the duplicated pairs
[("A", "B"), ("A", "B")], position 0: the resolver yields ("AI", "B"). -/
theorem resolver_pair_suffix_on_first_witness :
    0 < ([("A", "B"), ("A", "B")] : List (String × String)).length
      ∧ (resolveKeys pairSuffix [("A", "B"), ("A", "B")]).getD 0 ("", "") = ("AI", "B") :=
  ⟨by decide,
    (resolver_pair_suffix_on_first [("A", "B"), ("A", "B")] 0 (by decide)).trans (by decide)⟩

/-- C4: the resolver leaves a key of total occurrence count 1 unchanged and
gives every occurrence of a duplicated key the Roman numeral of its 1-based
occurrence index (the number of occurrences of that key among the first
`i + 1` inputs) as suffix, in input traversal order. -/
theorem resolver_deterministic_suffixing (keys : List String) (i : Nat) (h : i < keys.length) :
    (resolveKeys strSuffix keys).getD i "" =
      (if countKey (keys.getD i "") keys = 1 then keys.getD i ""
       else keys.getD i ""
              ++ number_to_roman_string (countKey (keys.getD i "") (keys.take (i + 1)))) := by
  have h1 := resolveAux_getD (fun k => countKey k keys) strSuffix "" keys (fun _ => 0) i h
  have h2 := one_le_countKey_getD "" keys i h
  rw [resolveKeys, h1]
  by_cases hc : countKey (keys.getD i "") keys = 1
  · rw [if_neg (show ¬ countKey (keys.getD i "") keys > 1 by omega), if_pos hc]
  · rw [if_pos (show countKey (keys.getD i "") keys > 1 by omega), if_neg hc]
    simp [strSuffix]

/-- Witness for C4 at the spec's example [A, A, B, A], position 3, together
with the fully resolved list [A+I, A+II, B, A+III], B unsuffixed. -/
theorem resolver_deterministic_suffixing_witness :
    3 < (["A", "A", "B", "A"] : List String).length
      ∧ (resolveKeys strSuffix ["A", "A", "B", "A"]).getD 3 "" = "AIII"
      ∧ resolveKeys strSuffix ["A", "A", "B", "A"] = ["AI", "AII", "B", "AIII"] :=
  ⟨by decide,
    (resolver_deterministic_suffixing ["A", "A", "B", "A"] 3 (by decide)).trans (by decide),
    by decide⟩

/-- C5: the label "7" sanitizes to the capitalized Roman-numeral spelling of 7
(non-empty, ASCII letters only), while the label "0" does not trigger the
numeral substitution and letter-extraction leaves the empty fragment. -/
theorem sanitize_numeral_special_case :
    format_command_part "7" = number_to_roman_string 7
      ∧ number_to_roman_string 7 ≠ ""
      ∧ ((number_to_roman_string 7).toList.all isAsciiLetter) = true
      ∧ format_command_part "0" = "" :=
  ⟨by decide, by decide, by decide, by decide⟩

/-- C6: inside a present StatValue the kinds loop drops an absent (None)
value without emitting anything and without error, while a present value 0 is
emitted as a leaf carrying the rendered text `format_value 0`; absence is
distinguished from zero. -/
theorem absent_vs_zero (cmd1 : LatexCommand) (col : Column) (k : String)
    (pre post : List (String × Option Int)) :
    kindLeaves cmd1 col (pre ++ [(k, none)] ++ post) = kindLeaves cmd1 col (pre ++ post)
      ∧ kindLeaves cmd1 col (pre ++ [(k, some 0)] ++ post) =
          kindLeaves cmd1 col pre
            ++ ({ cmd1 with stat_type := format_command_part k, value := col.format_value 0 }
                  :: kindLeaves cmd1 col post) := by
  constructor
  · simp [kindLeaves_append, kindLeaves]
  · simp [kindLeaves_append, kindLeaves]

/-- C7: for a column with a non-empty unit and a processed statistic with at
least one non-absent kind, the statistic's leaves are its kind leaves plus
exactly one extra "unit"-kind leaf, carrying the column's unit text verbatim
as its value and sharing the statistic's category and subcategory (the shared
`statBase`). -/
theorem unit_leaf_extra (init : LatexCommand) (col : Column) (stat_name : String)
    (sv : StatValue) (hu : col.unit ≠ "") (_hk : ∃ kv ∈ sv.kinds, kv.2 ≠ none) :
    statLeaves init col (stat_name, some sv) =
      kindLeaves (statBase init stat_name) col sv.kinds
        ++ [{ statBase init stat_name with
                stat_type := format_command_part "unit", value := col.unit }] := by
  simp [statLeaves, hu]

/-- Witness for C7: a column with unit "s" and a statistic with one present
kind value. -/
theorem unit_leaf_extra_witness :
    unitCol.unit ≠ ""
      ∧ (∃ kv ∈ (⟨[("sum", some 0)]⟩ : StatValue).kinds, kv.2 ≠ none)
      ∧ statLeaves (LatexCommand.init "b" "r") unitCol ("status", some ⟨[("sum", some 0)]⟩) =
          kindLeaves (statBase (LatexCommand.init "b" "r") "status") unitCol [("sum", some 0)]
            ++ [{ statBase (LatexCommand.init "b" "r") "status" with
                    stat_type := format_command_part "unit", value := unitCol.unit }] :=
  ⟨by decide, by decide,
    unit_leaf_extra (LatexCommand.init "b" "r") unitCol "status" ⟨[("sum", some 0)]⟩
      (by decide) (by decide)⟩

/-- C10: for a present statistic all of whose kind values are absent, a column
with a non-empty unit still yields exactly the "unit" leaf for that statistic,
with that statistic's category and subcategory; no non-absent kind is
required. -/
theorem unit_leaf_without_kinds (init : LatexCommand) (col : Column) (stat_name : String)
    (sv : StatValue) (hu : col.unit ≠ "") (hk : ∀ kv ∈ sv.kinds, kv.2 = none) :
    statLeaves init col (stat_name, some sv) =
      [{ statBase init stat_name with
           stat_type := format_command_part "unit", value := col.unit }] := by
  simp [statLeaves, hu, kindLeaves_eq_nil_of_absent (statBase init stat_name) col hk]

/-- Witness for C10: a statistic whose only kind value is absent, in a column
with unit "s". -/
theorem unit_leaf_without_kinds_witness :
    unitCol.unit ≠ ""
      ∧ (∀ kv ∈ (⟨[("sum", none)]⟩ : StatValue).kinds, kv.2 = none)
      ∧ statLeaves (LatexCommand.init "b" "r") unitCol ("status", some ⟨[("sum", none)]⟩) =
          [{ statBase (LatexCommand.init "b" "r") "status" with
               stat_type := format_command_part "unit", value := unitCol.unit }] :=
  ⟨by decide, by decide,
    unit_leaf_without_kinds (LatexCommand.init "b" "r") unitCol "status" ⟨[("sum", none)]⟩
      (by decide) (by decide)⟩

/-- C1, counterexample: with one run-set whose columns are titled
"AI", "A", "A", the duplicated raw title "A" receives suffixes producing the
fragment "AI" — which collides with the pre-existing singleton title "AI" —
so two emitted commands share the same six-fragment identifier tuple. -/
theorem uniqueness_counterexample :
    (allCommands c1runs c1stats).map tuple6 =
        [("B", "R", "AI", "Status", "", "Sum"),
         ("B", "R", "AI", "Status", "", "Sum"),
         ("B", "R", "AII", "Status", "", "Sum")]
      ∧ ¬ ((allCommands c1runs c1stats).map tuple6).Pairwise (· ≠ ·) :=
  ⟨by decide, by decide⟩

/-- C3, counterexample: two columns whose raw selected titles "a b" and "a-b"
differ as raw text but sanitize to the same fragment "AB" are NOT treated as
a duplicated group — no Roman suffix is added to either — and the resulting
six-fragment tuples collide. -/
theorem column_raw_compare_counterexample :
    (allCommands c3runs c3stats).map (fun c => c.column_title) = ["AB", "AB"]
      ∧ ¬ ((allCommands c3runs c3stats).map tuple6).Pairwise (· ≠ ·) :=
  ⟨by decide, by decide⟩

/-- C3, amended: the column-level resolver compares the RAW selected titles
(display title if present, else title), not their sanitized fragments: when
the raw titles are pairwise distinct, no suffix is added to any column — the
title fragment of every emitted command is just the sanitized raw title, even
if two raw titles sanitize to the same fragment. -/
theorem column_resolver_uses_raw_titles (rs : RunSet) (sl : List (Option ColumnStatistics))
    (cur : LatexCommand) (h : (rs.columns.map select_column_name).Nodup) :
    provide_latex_commands rs sl cur =
      (rs.columns.zip sl).flatMap fun it =>
        column_statistic_to_latex_command
          { cur with column_title := format_command_part (select_column_name it.1) }
          it.2 it.1 := by
  rw [provide_latex_commands, emitAux_eq]
  rw [resolveAux_id]
  · rw [map_key_zip_self]
    rw [List.flatMap_map]
    rfl
  · intro k hk
    obtain ⟨it, hit, rfl⟩ := List.mem_map.mp hk
    have hmem : it.1 ∈ rs.columns := (List.of_mem_zip hit).1
    have : countKey (select_column_name it.1) (rs.columns.map select_column_name) = 1 :=
      countKey_eq_one_of_nodup h (List.mem_map_of_mem _ hmem)
    rw [columnTotals]
    omega

/-- C1, amended: every emitted command's six-fragment identifier tuple is
distinct from every other emitted command's tuple PROVIDED the disambiguated
fragments are themselves pairwise distinct at every level: the formatted
resolved (benchmark, run-set) pairs across run-sets, the formatted resolved
column-title fragments within each run-set, and the (category, subcategory,
kind) triples within each column's record.  (The resolver does not guarantee
these premises by itself: a suffixed key can collide with an unrelated key,
see the counterexample.) -/
theorem uniqueness_of_distinct_fragments (run_sets : List RunSet)
    (stats : List (List (Option ColumnStatistics)))
    (h1 : ((resolvedNamePairs run_sets stats).map finalPair).Pairwise (· ≠ ·))
    (h2 : ∀ p ∈ run_sets.zip stats,
      ((resolvedColumnTitles p.1 p.2).map format_command_part).Pairwise (· ≠ ·))
    (h3 : ∀ p ∈ run_sets.zip stats, ∀ q ∈ p.1.columns.zip p.2,
      (leafTriples q.1 q.2).Pairwise (· ≠ ·)) :
    ((allCommands run_sets stats).map tuple6).Pairwise (· ≠ ·) := by
  refine List.pairwise_map.mpr ?_
  have hall : allCommands run_sets stats =
      ((resolvedNamePairs run_sets stats).zip (run_sets.zip stats)).flatMap
        fun p => runsetBlock p.1 p.2 := emitAux_eq _ _ _ _ _ _
  rw [hall]
  have hlen : (resolvedNamePairs run_sets stats).length ≤ (run_sets.zip stats).length := by
    rw [resolvedNamePairs, resolveAux_length, List.length_map]
  refine pairwise_flatMap_tagged tupleNe (· ≠ ·) namePairOf
    (fun c1 c2 hS heq => hS (namePairOf_eq_of_tuple6_eq heq)) _
    (fun p => finalPair p.1) _ ?_ ?_ ?_
  · have hfst : ((((resolvedNamePairs run_sets stats).zip (run_sets.zip stats))).map
        fun p => finalPair p.1)
        = (resolvedNamePairs run_sets stats).map finalPair := by
      rw [show (fun p : (String × String) × (RunSet × List (Option ColumnStatistics)) =>
            finalPair p.1) = finalPair ∘ Prod.fst from rfl]
      rw [← List.map_map, List.map_fst_zip _ _ hlen]
    rw [hfst]; exact h1
  · rintro ⟨k2, it⟩ - c hc
    have hfix := provide_fixed it.1 it.2 (LatexCommand.init k2.1 k2.2) hc
    simp only [namePairOf, hfix.1, hfix.2, LatexCommand.init, finalPair]
  · rintro ⟨k2, it⟩ hp
    have hmem : it ∈ run_sets.zip stats := (List.of_mem_zip hp).2
    exact provide_pairwise it.1 it.2 _ (h2 it hmem) (h3 it hmem)

/-- Witness for the amended C1: one run-set with one column and one statistic
with two present kinds satisfies all three distinctness premises, and the
emitted tuples are pairwise distinct. -/
theorem uniqueness_of_distinct_fragments_witness :
    ((resolvedNamePairs w1runs w1stats).map finalPair).Pairwise (· ≠ ·)
      ∧ (∀ p ∈ w1runs.zip w1stats,
          ((resolvedColumnTitles p.1 p.2).map format_command_part).Pairwise (· ≠ ·))
      ∧ (∀ p ∈ w1runs.zip w1stats, ∀ q ∈ p.1.columns.zip p.2,
          (leafTriples q.1 q.2).Pairwise (· ≠ ·))
      ∧ ((allCommands w1runs w1stats).map tuple6).Pairwise (· ≠ ·) :=
  ⟨by decide, by decide, by decide,
    uniqueness_of_distinct_fragments w1runs w1stats (by decide) (by decide) (by decide)⟩

/-!  Erasing the instrumentation recovers the real generation pass. -/

theorem tagKindLeaves_map_snd (cmd1 : LatexCommand) (col : Column) :
    ∀ (i : Nat) (l : List (String × Option Int)),
      (tagKindLeaves cmd1 col i l).map Prod.snd = kindLeaves cmd1 col l
  | _, [] => rfl
  | i, (k, v) :: rest => by
    cases v <;>
      simp [tagKindLeaves, kindLeaves, tagKindLeaves_map_snd cmd1 col (i + 1) rest]

theorem tagStatLeaves_map_snd (init : LatexCommand) (col : Column)
    (f : String × Option StatValue) :
    (tagStatLeaves init col f).map Prod.snd = statLeaves init col f := by
  obtain ⟨n, sv⟩ := f
  cases sv with
  | none => rfl
  | some sv =>
    by_cases hu : col.unit ≠ "" <;>
      simp [tagStatLeaves, statLeaves, hu, tagKindLeaves_map_snd]

theorem tagFields_map_snd (init : LatexCommand) (col : Column) :
    ∀ (s : Nat) (fs : List (String × Option StatValue)),
      (tagFields init col s fs).map Prod.snd = statLeavesList init col fs
  | _, [] => rfl
  | s, f :: rest => by
    rw [tagFields, List.map_append, List.map_map, tagFields_map_snd init col (s + 1) rest]
    show (tagStatLeaves init col f).map Prod.snd ++ _ = _
    rw [tagStatLeaves_map_snd]
    rfl

theorem tagWalker_map_snd (init : LatexCommand) (cs : Option ColumnStatistics) (col : Column) :
    (tagWalker init cs col).map Prod.snd = column_statistic_to_latex_command init cs col := by
  cases cs with
  | none => rfl
  | some cs => exact tagFields_map_snd init col 0 cs.fields

theorem tagColumns_map_snd (cur : LatexCommand) :
    ∀ (j : Nat) (ps : List (String × (Column × Option ColumnStatistics))),
      (tagColumns cur j ps).map Prod.snd = ps.flatMap fun p => columnBlock cur p.1 p.2
  | _, [] => rfl
  | j, p :: rest => by
    rw [tagColumns, List.map_append, List.map_map, tagColumns_map_snd cur (j + 1) rest,
      List.flatMap_cons]
    congr 1
    show (tagWalker _ p.2.2 p.2.1).map Prod.snd = _
    rw [tagWalker_map_snd]
    rfl

theorem tagProvide_map_snd (rs : RunSet) (sl : List (Option ColumnStatistics))
    (cur : LatexCommand) :
    (tagProvide rs sl cur).map Prod.snd = provide_latex_commands rs sl cur := by
  rw [tagProvide, tagColumns_map_snd]
  exact (emitAux_eq _ _ _ _ _ _).symm

theorem tagRunsets_map_snd :
    ∀ (i : Nat) (ps : List ((String × String) × (RunSet × List (Option ColumnStatistics)))),
      (tagRunsets i ps).map Prod.snd = ps.flatMap fun p => runsetBlock p.1 p.2
  | _, [] => rfl
  | i, p :: rest => by
    rw [tagRunsets, List.map_append, List.map_map, tagRunsets_map_snd (i + 1) rest,
      List.flatMap_cons]
    congr 1
    show (tagProvide p.2.1 p.2.2 _).map Prod.snd = _
    rw [tagProvide_map_snd]
    rfl

theorem taggedCommands_map_snd (run_sets : List RunSet)
    (stats : List (List (Option ColumnStatistics))) :
    (taggedCommands run_sets stats).map Prod.snd = allCommands run_sets stats := by
  rw [taggedCommands, tagRunsets_map_snd]
  exact (emitAux_eq _ _ _ _ _ _).symm

/-!  The instrumentation coordinates are strictly increasing. -/

theorem tagKindLeaves_bounds (cmd1 : LatexCommand) (col : Column) :
    ∀ (i : Nat) (l : List (String × Option Int)) (t : Nat × LatexCommand),
      t ∈ tagKindLeaves cmd1 col i l → i ≤ t.1 ∧ t.1 < i + l.length
  | i, (k, v) :: rest, t, h => by
    cases v with
    | none =>
      have h2 := tagKindLeaves_bounds cmd1 col (i + 1) rest t h
      simp only [List.length_cons]
      omega
    | some v =>
      rcases List.mem_cons.mp h with h1 | h2
      · subst h1
        simp only [List.length_cons]
        exact ⟨Nat.le_refl i, by omega⟩
      · have h3 := tagKindLeaves_bounds cmd1 col (i + 1) rest t h2
        simp only [List.length_cons]
        omega

theorem tagKindLeaves_pairwise (cmd1 : LatexCommand) (col : Column) :
    ∀ (i : Nat) (l : List (String × Option Int)),
      (tagKindLeaves cmd1 col i l).Pairwise fun a b => a.1 < b.1
  | _, [] => List.Pairwise.nil
  | i, (k, v) :: rest => by
    cases v with
    | none => exact tagKindLeaves_pairwise cmd1 col (i + 1) rest
    | some v =>
      refine List.pairwise_cons.mpr ⟨?_, tagKindLeaves_pairwise cmd1 col (i + 1) rest⟩
      intro t ht
      exact Nat.lt_of_lt_of_le (Nat.lt_succ_self i)
        (tagKindLeaves_bounds cmd1 col (i + 1) rest t ht).1

theorem tagStatLeaves_pairwise (init : LatexCommand) (col : Column)
    (f : String × Option StatValue) :
    (tagStatLeaves init col f).Pairwise fun a b => a.1 < b.1 := by
  obtain ⟨n, sv⟩ := f
  cases sv with
  | none => exact List.Pairwise.nil
  | some sv =>
    rw [show tagStatLeaves init col (n, some sv) =
        tagKindLeaves (statBase init n) col 0 sv.kinds
          ++ (if col.unit ≠ "" then
                [(sv.kinds.length,
                  { statBase init n with
                      stat_type := format_command_part "unit", value := col.unit })]
              else []) from rfl]
    rw [List.pairwise_append]
    refine ⟨tagKindLeaves_pairwise _ col 0 sv.kinds, ?_, ?_⟩
    · by_cases hu : col.unit ≠ "" <;> simp [hu]
    · intro a ha b hb
      by_cases hu : col.unit ≠ ""
      · rw [if_pos hu] at hb
        have hb2 := List.mem_singleton.mp hb
        subst hb2
        have h3 := (tagKindLeaves_bounds _ col 0 sv.kinds a ha).2
        simpa using h3
      · rw [if_neg hu] at hb
        cases hb

theorem tagFields_lower (init : LatexCommand) (col : Column) :
    ∀ (s : Nat) (fs : List (String × Option StatValue)) (t : (Nat × Nat) × LatexCommand),
      t ∈ tagFields init col s fs → s ≤ t.1.1
  | s, f :: rest, t, h => by
    rcases List.mem_append.mp h with h1 | h2
    · obtain ⟨t0, -, rfl⟩ := List.mem_map.mp h1
      exact Nat.le_refl s
    · have h3 := tagFields_lower init col (s + 1) rest t h2
      omega

theorem tagFields_pairwise (init : LatexCommand) (col : Column) :
    ∀ (s : Nat) (fs : List (String × Option StatValue)),
      (tagFields init col s fs).Pairwise fun a b => pairLt a.1 b.1
  | _, [] => List.Pairwise.nil
  | s, f :: rest => by
    rw [tagFields, List.pairwise_append]
    refine ⟨?_, tagFields_pairwise init col (s + 1) rest, ?_⟩
    · refine List.pairwise_map.mpr ((tagStatLeaves_pairwise init col f).imp ?_)
      intro a b hab
      exact Or.inr ⟨rfl, hab⟩
    · intro a ha b hb
      obtain ⟨t0, -, rfl⟩ := List.mem_map.mp ha
      exact Or.inl (Nat.lt_of_lt_of_le (Nat.lt_succ_self s)
        (tagFields_lower init col (s + 1) rest b hb))

theorem tagWalker_pairwise (init : LatexCommand) (cs : Option ColumnStatistics) (col : Column) :
    (tagWalker init cs col).Pairwise fun a b => pairLt a.1 b.1 := by
  cases cs with
  | none => exact List.Pairwise.nil
  | some cs => exact tagFields_pairwise init col 0 cs.fields

theorem tagColumns_lower (cur : LatexCommand) :
    ∀ (j : Nat) (ps : List (String × (Column × Option ColumnStatistics)))
      (t : (Nat × Nat × Nat) × LatexCommand), t ∈ tagColumns cur j ps → j ≤ t.1.1
  | j, p :: rest, t, h => by
    rcases List.mem_append.mp h with h1 | h2
    · obtain ⟨t0, -, rfl⟩ := List.mem_map.mp h1
      exact Nat.le_refl j
    · have h3 := tagColumns_lower cur (j + 1) rest t h2
      omega

theorem tagColumns_pairwise (cur : LatexCommand) :
    ∀ (j : Nat) (ps : List (String × (Column × Option ColumnStatistics))),
      (tagColumns cur j ps).Pairwise fun a b => tripLt a.1 b.1
  | _, [] => List.Pairwise.nil
  | j, p :: rest => by
    rw [tagColumns, List.pairwise_append]
    refine ⟨?_, tagColumns_pairwise cur (j + 1) rest, ?_⟩
    · refine List.pairwise_map.mpr ((tagWalker_pairwise _ p.2.2 p.2.1).imp ?_)
      intro a b hab
      exact Or.inr ⟨rfl, hab⟩
    · intro a ha b hb
      obtain ⟨t0, -, rfl⟩ := List.mem_map.mp ha
      exact Or.inl (Nat.lt_of_lt_of_le (Nat.lt_succ_self j)
        (tagColumns_lower cur (j + 1) rest b hb))

theorem tagProvide_pairwise (rs : RunSet) (sl : List (Option ColumnStatistics))
    (cur : LatexCommand) :
    (tagProvide rs sl cur).Pairwise fun a b => tripLt a.1 b.1 :=
  tagColumns_pairwise cur 0 _

theorem tagRunsets_lower :
    ∀ (i : Nat) (ps : List ((String × String) × (RunSet × List (Option ColumnStatistics))))
      (t : Coord × LatexCommand), t ∈ tagRunsets i ps → i ≤ t.1.1
  | i, p :: rest, t, h => by
    rcases List.mem_append.mp h with h1 | h2
    · obtain ⟨t0, -, rfl⟩ := List.mem_map.mp h1
      exact Nat.le_refl i
    · have h3 := tagRunsets_lower (i + 1) rest t h2
      omega

theorem tagRunsets_pairwise :
    ∀ (i : Nat) (ps : List ((String × String) × (RunSet × List (Option ColumnStatistics)))),
      (tagRunsets i ps).Pairwise fun a b => coordLt a.1 b.1
  | _, [] => List.Pairwise.nil
  | i, p :: rest => by
    rw [tagRunsets, List.pairwise_append]
    refine ⟨?_, tagRunsets_pairwise (i + 1) rest, ?_⟩
    · refine List.pairwise_map.mpr ((tagProvide_pairwise p.2.1 p.2.2 _).imp ?_)
      intro a b hab
      exact Or.inr ⟨rfl, hab⟩
    · intro a ha b hb
      obtain ⟨t0, -, rfl⟩ := List.mem_map.mp ha
      exact Or.inl (Nat.lt_of_lt_of_le (Nat.lt_succ_self i) (tagRunsets_lower (i + 1) rest b hb))

/-- C8: the emission order follows the input order exactly — erasing the
instrumentation of `taggedCommands` yields the real command sequence, and the
source coordinates (run-set, column, statistic-field, kind) of the emitted
leaves are strictly lexicographically increasing.  Generation is a pure
function of its input, so two passes over identical input are byte-identical
by reflexivity. -/
theorem emission_order_deterministic (run_sets : List RunSet)
    (stats : List (List (Option ColumnStatistics))) :
    (taggedCommands run_sets stats).map Prod.snd = allCommands run_sets stats
      ∧ ((taggedCommands run_sets stats).map Prod.fst).Pairwise coordLt :=
  ⟨taggedCommands_map_snd run_sets stats,
    List.pairwise_map.mpr ((tagRunsets_pairwise 0 _).imp fun h => h)⟩

/-- Zipping ignores the tail of the longer right-hand list. -/
theorem zip_append_right {α β : Type} :
    ∀ (l1 : List α) (l2 l3 : List β), l1.length ≤ l2.length → l1.zip (l2 ++ l3) = l1.zip l2
  | [], _, _, _ => by simp
  | a :: r1, b :: r2, l3, h => by
    simp [zip_append_right r1 r2 l3 (by simpa using h)]
  | a :: r1, [], l3, h => by simp at h

/-- C9: generation tolerates length mismatches without error — the pairing of
run-sets with statistic lists, and of columns with records, truncates to the
shorter sequence.  The emitted commands are the concatenation of exactly
`min` blocks at each level, so surplus run-sets or columns contribute no
output lines, and surplus statistic lists are ignored entirely. -/
theorem truncation_safety (run_sets : List RunSet)
    (stats : List (List (Option ColumnStatistics)))
    (extra : List (List (Option ColumnStatistics))) :
    allCommands run_sets stats = (runsetBlocks run_sets stats).flatten
      ∧ (runsetBlocks run_sets stats).length = min run_sets.length stats.length
      ∧ (∀ (rs : RunSet) (sl : List (Option ColumnStatistics)) (cur : LatexCommand),
          provide_latex_commands rs sl cur = (columnBlocks rs sl cur).flatten
            ∧ (columnBlocks rs sl cur).length = min rs.columns.length sl.length)
      ∧ (run_sets.length ≤ stats.length →
          allCommands run_sets (stats ++ extra) = allCommands run_sets stats) := by
  refine ⟨?_, ?_, ?_, ?_⟩
  · rw [show allCommands run_sets stats =
        ((resolvedNamePairs run_sets stats).zip (run_sets.zip stats)).flatMap
          (fun p => runsetBlock p.1 p.2) from emitAux_eq _ _ _ _ _ _]
    rw [List.flatMap_def]
    rfl
  · have hlen : (resolvedNamePairs run_sets stats).length = (run_sets.zip stats).length := by
      rw [resolvedNamePairs, resolveAux_length, List.length_map]
    rw [runsetBlocks, List.length_map, List.length_zip, hlen, List.length_zip]
    omega
  · intro rs sl cur
    constructor
    · rw [show provide_latex_commands rs sl cur =
          ((resolvedColumnTitles rs sl).zip (rs.columns.zip sl)).flatMap
            (fun p => columnBlock cur p.1 p.2) from emitAux_eq _ _ _ _ _ _]
      rw [List.flatMap_def]
      rfl
    · have hlen : (resolvedColumnTitles rs sl).length = (rs.columns.zip sl).length := by
        rw [resolvedColumnTitles, resolveAux_length, List.length_map]
      rw [columnBlocks, List.length_map, List.length_zip, hlen, List.length_zip]
      omega
  · intro h
    rw [allCommands, allCommands, zip_append_right run_sets stats extra h]

/-- Witness for C9: surplus statistic lists beyond the run-set list are
ignored at a concrete input. -/
theorem truncation_safety_witness :
    w1runs.length ≤ w1stats.length
      ∧ allCommands w1runs (w1stats ++ [[sumRecord]]) = allCommands w1runs w1stats :=
  ⟨by decide, (truncation_safety w1runs w1stats [[sumRecord]]).2.2.2 (by decide)⟩

/-- Witness for the amended C3 at two columns with raw-distinct titles
"a b" and "a-b" that sanitize identically. -/
theorem column_resolver_uses_raw_titles_witness :
    (c3rs.columns.map select_column_name).Nodup
      ∧ provide_latex_commands c3rs [sumRecord, sumRecord] (LatexCommand.init "b" "r") =
          (c3rs.columns.zip [sumRecord, sumRecord]).flatMap fun it =>
            column_statistic_to_latex_command
              { LatexCommand.init "b" "r" with
                  column_title := format_command_part (select_column_name it.1) }
              it.2 it.1 :=
  ⟨by decide,
    column_resolver_uses_raw_titles c3rs [sumRecord, sumRecord] (LatexCommand.init "b" "r")
      (by decide)⟩

end StatisticsTex
